import Mathlib

-- Verification of the NetBox cable-path endpoint resolution engine:
-- the post-save / pre-delete cable signal handlers (netbox/dcim/signals.py)
-- and the batch `retrace` management command
-- (netbox/extras/management/commands/retrace.py).

set_option autoImplicit false

namespace Netbox

/-- Kinds of cable terminations that the resolution engine distinguishes.
`interface` stands for any real endpoint carrying the
`connected_endpoint` / `connection_status` cache (interfaces, console
ports, power ports, ...); `circuitTermination` is the circuit-side real
endpoint class tested by the legacy fallback rule; `frontPort` and
`rearPort` are the pass-through patch-panel ports. -/
inductive TermKind where
  | interface
  | circuitTermination
  | frontPort
  | rearPort
  deriving DecidableEq

/-- A cable termination record, identified by its primary key. -/
structure Termination where
  id : Nat
  kind : TermKind
  deriving DecidableEq

/-- Cable status choices (`CableStatusChoices`): `connected`, `planned`,
and the decommissioning-equivalent not-connected state. -/
inductive CableStatus where
  | connected
  | planned
  | not_connected
  deriving DecidableEq

/-- A cable record: primary key plus status. -/
structure Cable where
  id : Nat
  status : CableStatus
  deriving DecidableEq

/-- One element of a traced path, the tuple
`(termination, cable, next_termination)` appended by `trace()` on each
hop.  The cable is `none` at an immediate dead end and
`next_termination` is `none` when the cable has no far side. -/
structure Segment where
  termination : Termination
  cable : Option Cable
  next_termination : Option Termination
  deriving DecidableEq

/-- The triple returned by `endpoint.trace()` and consumed by both
reconciliation call sites: `path, split_ends, position_stack`. -/
structure Traced where
  path : List Segment
  split_ends : Bool
  position_stack : List Nat
  deriving DecidableEq

/-- `isinstance(t, (FrontPort, RearPort))` — the pass-through test used
by the acceptance rule in both call sites. -/
def isPassThrough (t : Termination) : Bool :=
  match t.kind with
  | TermKind.frontPort => true
  | TermKind.rearPort => true
  | _ => false

/-- `isinstance(t, CableTermination)`: every termination handled by the
engine is a `CableTermination`, so this is constantly true in the
embedding; it is kept so the acceptance rule mirrors the source test
for test. -/
def isCableTermination (_t : Termination) : Bool :=
  true

/-- `hasattr(endpoint, 'connected_endpoint')`: the cache fields exist
exactly on the non-pass-through (real endpoint) termination classes. -/
def has_connected_endpoint (t : Termination) : Bool :=
  !isPassThrough t

/-- The aggregate path status loop shared verbatim by
signals.py lines 58-62 and retrace.py lines 78-82: start from `True`
and demote to `False` on the first segment whose cable is `None` or
whose status is not `STATUS_CONNECTED`. -/
def path_status (path : List Segment) : Bool :=
  path.all fun seg =>
    match seg.cable with
    | none => false
    | some c => c.status == CableStatus.connected

/-- `endpoint_a = path[0][0]` (signals.py line 64, retrace.py line 84).
Traced paths are never empty (`trace()` appends a segment before any
stop), so the default segment is never reached on real inputs. -/
def endpoint_a (path : List Segment) : Termination :=
  (path.headD ⟨⟨0, TermKind.interface⟩, none, none⟩).termination

/-- The `endpoint_b` computation shared verbatim by signals.py
lines 65-71 and retrace.py lines 85-91: when the trace is unambiguous
(`not split_ends and not position_stack`) take the final segment's
`next_termination`, falling back to the second-to-last segment's
`next_termination` when the former is `None` and the latter is a
`CircuitTermination`; otherwise `endpoint_b = None`. -/
def resolve_endpoint_b (t : Traced) : Option Termination :=
  if !t.split_ends && t.position_stack.isEmpty then
    match t.path.getLast? with
    | some seg =>
      match seg.next_termination with
      | some b => some b
      | none =>
        if 2 ≤ t.path.length then
          match t.path[t.path.length - 2]? with
          | some seg2 =>
            match seg2.next_termination with
            | some b =>
              if b.kind = TermKind.circuitTermination then some b else none
            | none => none
          | none => none
        else none
    | none => none
  else none

/-- The acceptance condition of signals.py lines 74-75 and retrace.py
lines 94-95: both endpoints are `CableTermination`s and neither is a
`FrontPort` or a `RearPort`. -/
def acceptPair (a b : Termination) : Bool :=
  isCableTermination a && !isPassThrough a &&
    (isCableTermination b && !isPassThrough b)

/-- One persisted cache update: `target.connected_endpoint = ...;
target.connection_status = ...; target.save()`.  `connection_status`
is the tri-state connected / planned / none cache field, encoded as
`some true` / `some false` / `none`. -/
structure Write where
  target : Nat
  connected_endpoint : Option Nat
  connection_status : Option Bool
  deriving DecidableEq

/-- The pair of saves performed when a pair is accepted (signals.py
lines 77-82, retrace.py lines 101-106): `endpoint_a` first, then
`endpoint_b`, both with the same computed path status. -/
def mutual_writes (a b : Termination) (ps : Bool) : List Write :=
  [⟨a.id, some b.id, some ps⟩, ⟨b.id, some a.id, some ps⟩]

/-- The saves performed by one iteration of the endpoint loop of
`update_connected_endpoints` (signals.py lines 55-82).  There is no
clearing branch: when the acceptance rule fails nothing is written. -/
def signal_endpoint_writes (t : Traced) : List Write :=
  match resolve_endpoint_b t with
  | some b =>
    if acceptPair (endpoint_a t.path) b then
      mutual_writes (endpoint_a t.path) b (path_status t.path)
    else []
  | none => []

/-- The saves performed by one iteration of the endpoint loop of the
`retrace` command (retrace.py lines 75-117): the accepted pair is
written mutually; `elif endpoint_b is None` clears
`connected_endpoint` but assigns the computed `path_status` to
`connection_status` (lines 113-114); when `endpoint_b` is a
non-accepted termination nothing is written. -/
def retrace_endpoint_writes (t : Traced) : List Write :=
  match resolve_endpoint_b t with
  | some b =>
    if acceptPair (endpoint_a t.path) b then
      mutual_writes (endpoint_a t.path) b (path_status t.path)
    else []
  | none => [⟨(endpoint_a t.path).id, none, some (path_status t.path)⟩]

/-- The cached pair on one real endpoint. -/
structure Cache where
  connected_endpoint : Option Nat
  connection_status : Option Bool
  deriving DecidableEq

/-- The persisted cache of all endpoints, keyed by primary key. -/
abbrev CacheState := Nat → Cache

/-- Persist one write. -/
def apply_write (st : CacheState) (w : Write) : CacheState :=
  fun i =>
    if i = w.target then ⟨w.connected_endpoint, w.connection_status⟩ else st i

/-- Persist a list of writes in order. -/
def apply_writes : CacheState → List Write → CacheState
  | st, [] => st
  | st, w :: rest => apply_writes (apply_write st w) rest

/-- The endpoint loop of `update_connected_endpoints`, run over the
trace results of the collected endpoints; returns the final cache
state and the saves performed, in order. -/
def signal_run : List Traced → CacheState → CacheState × List Write
  | [], st => (st, [])
  | t :: rest, st =>
    let ws := signal_endpoint_writes t
    let r := signal_run rest (apply_writes st ws)
    (r.1, ws ++ r.2)

/-- Result of one model's batch pass in the `retrace` command: final
cache state, the saves performed in order, and the reported count. -/
structure RunResult where
  state : CacheState
  writes : List Write
  count : Nat

/-- The endpoint loop of `Command.handle` in retrace.py (lines 75-117)
for one model: each endpoint is resolved, its writes are persisted, and
`count += 1` runs once per endpoint iterated. -/
def retrace_run : List Traced → CacheState → RunResult
  | [], st => ⟨st, [], 0⟩
  | t :: rest, st =>
    let ws := retrace_endpoint_writes t
    let r := retrace_run rest (apply_writes st ws)
    ⟨r.state, ws ++ r.writes, r.count + 1⟩

/-- Modelled from the spec: the Topology Accessor interface of spec §6
consumed by `trace()` (the tracer itself lives in the dcim models
package, which is not under src/): per-termination kind and attached
cable, cable far sides, the front-port → (rear port, position) mapping,
the (rear port, position) → front port mapping (total, per the §3 data
model in which every exposed position maps to a front port), position
counts, and the circuit-termination peer hop presupposed by the §4.3
fallback rule.  `ids` is the finite universe of termination keys. -/
structure Topology where
  ids : List Nat
  kind : Nat → TermKind
  cableOf : Nat → Option Cable
  farSide : Nat → Nat → Option Nat
  frontToRear : Nat → Nat × Nat
  rearToFront : Nat → Nat → Nat
  positions : Nat → Nat
  circuitPeer : Nat → Option Nat

/-- The termination record for a key. -/
def termOf (topo : Topology) (i : Nat) : Termination :=
  ⟨i, topo.kind i⟩

/-- Outcome of one iteration of the tracing loop: either stop, emitting
a final segment and the split-ends flag, or continue from a new current
termination with an updated position stack. -/
inductive StepOut where
  | stop (seg : Segment) (split_ends : Bool)
  | go (seg : Segment) (next : Nat) (stack : List Nat)

/-- Modelled from the spec: one iteration of the `trace()` loop
(spec §4.1, steps 1-6), for the tracer that is not under src/.
A termination with no cable, a cable with no far side, and a real
endpoint all stop the walk; a front port pushes its position (only when
its rear port exposes more than one) and continues at the rear port; a
rear port continues at the mapped front port, popping a position when it
exposes several, or stops with `split_ends = true` on an empty stack; a
circuit termination continues at its circuit peer when one exists
(the hop presupposed by the §4.3 circuit-termination fallback rule). -/
def traceStep (topo : Topology) (cur : Nat) (stack : List Nat) : StepOut :=
  match topo.cableOf cur with
  | none => .stop ⟨termOf topo cur, none, none⟩ false
  | some cable =>
    match topo.farSide cable.id cur with
    | none => .stop ⟨termOf topo cur, some cable, none⟩ false
    | some nxt =>
      let seg : Segment := ⟨termOf topo cur, some cable, some (termOf topo nxt)⟩
      match topo.kind nxt with
      | TermKind.frontPort =>
        let rp := topo.frontToRear nxt
        .go seg rp.1 (if 1 < topo.positions rp.1 then rp.2 :: stack else stack)
      | TermKind.rearPort =>
        if 1 < topo.positions nxt then
          match stack with
          | p :: rest => .go seg (topo.rearToFront nxt p) rest
          | [] => .stop seg true
        else .go seg (topo.rearToFront nxt 1) stack
      | TermKind.circuitTermination =>
        match topo.circuitPeer nxt with
        | some peer => .go seg peer stack
        | none => .stop seg false
      | TermKind.interface => .stop seg false

/-- The unguarded hop relation on (current termination, position stack)
pairs induced by the tracing loop; `none` where the loop stops. -/
def stepCS (topo : Topology) (cs : Nat × List Nat) : Option (Nat × List Nat) :=
  match traceStep topo cs.1 cs.2 with
  | .stop _ _ => none
  | .go _ c s => some (c, s)

/-- The unguarded chain of cables and pass-through hops followed from a
starting (termination, stack) pair. -/
def walkFrom (topo : Topology) : Nat × List Nat → Nat → Option (Nat × List Nat)
  | cs, 0 => some cs
  | cs, n + 1 =>
    match stepCS topo cs with
    | none => none
    | some cs' => walkFrom topo cs' n

/-- The topology has a cycle reachable from `start`: the chain of cable
and pass-through hops eventually revisits a termination. -/
def hasCycleFrom (topo : Topology) (start : Nat) : Prop :=
  ∃ i j ci si cj sj, i < j ∧ walkFrom topo (start, []) i = some (ci, si) ∧
    walkFrom topo (start, []) j = some (cj, sj) ∧ ci = cj

/-- Result of a guarded trace: the `(path, split_ends, position_stack)`
triple, or the distinct cycle error required by spec §4.1/§7 when the
visited-termination guard trips.  `outOfFuel` is the recursion bound of
the embedding; `trace` supplies enough fuel that it is never returned. -/
inductive TraceResult where
  | ok (path : List Segment) (split_ends : Bool) (position_stack : List Nat)
  | cycleError (t : Nat)
  | outOfFuel
  deriving DecidableEq

/-- Modelled from the spec: the guarded tracing loop of §4.1 with the
required visited-termination guard, accumulating the path. -/
def traceAux (topo : Topology) :
    Nat → Nat → List Nat → List Segment → List Nat → TraceResult
  | 0, _, _, _, _ => .outOfFuel
  | fuel + 1, cur, visited, path, stack =>
    if cur ∈ visited then .cycleError cur
    else
      match traceStep topo cur stack with
      | .stop seg se => .ok (path ++ [seg]) se stack
      | .go seg c s => traceAux topo fuel c (cur :: visited) (path ++ [seg]) s

/-- Modelled from the spec: `termination.trace()` (spec §4.1, §6),
starting with an empty path, empty visited set and empty position
stack.  The fuel bound `ids.length + 1` is never exhausted because the
visited set grows on every iteration. -/
def trace (topo : Topology) (start : Nat) : TraceResult :=
  traceAux topo (topo.ids.length + 1) start [] [] []

/-- Modelled from the spec: `termination.get_path_endpoints()` (dcim
models, not under src/), per spec §4.4 — the real endpoint reachable by
tracing from the termination; an ambiguous or unresolved trace
contributes no endpoint. -/
def get_path_endpoints (topo : Topology) (t : Nat) : List Termination :=
  match trace topo t with
  | .ok path false [] =>
    match path.getLast? with
    | some seg =>
      match seg.next_termination with
      | some e => if isPassThrough e then [] else [e]
      | none => []
    | none => []
  | _ => []

/-- `nullify_connected_endpoints` (signals.py lines 85-110): the
reachable endpoints are collected first (line 92), then the cable is
disassociated from its two termination points (lines 95-102), and then
every collected endpoint carrying the cache fields has both
`connected_endpoint` and `connection_status` set to `None`
(lines 105-110). -/
def nullify_connected_endpoints (topo : Topology) (ta tb : Nat)
    (st : CacheState) : Topology × CacheState :=
  let endpoints := get_path_endpoints topo ta ++ get_path_endpoints topo tb
  let topo' : Topology :=
    ⟨topo.ids, topo.kind,
      fun i => if i = ta || i = tb then none else topo.cableOf i,
      topo.farSide, topo.frontToRear, topo.rearToFront, topo.positions,
      topo.circuitPeer⟩
  (topo',
    apply_writes st
      ((endpoints.filter fun e => has_connected_endpoint e).map
        fun e => ⟨e.id, none, none⟩))

/-- The contract of spec §4.1 on the tail of a traced path, used as a
hypothesis when quantifying over trace outputs: when the trace is
unambiguous, its final `next_termination`, if any, is not a
pass-through port (the loop only stops at real endpoints or dead
ends). -/
def tail_ok (t : Traced) : Bool :=
  if t.split_ends = false ∧ t.position_stack = [] then
    match t.path.getLast? with
    | some seg =>
      match seg.next_termination with
      | some b => !isPassThrough b
      | none => true
    | none => true
  else true

-- Concrete topologies used by individual counterexamples and witnesses.

/-- Interface 1 cabled (cable 21, connected) to rear port 4, which
exposes two positions; tracing from 1 is ambiguous. -/
def c2T : Topology :=
  ⟨[1, 4],
    fun i => if i = 4 then TermKind.rearPort else TermKind.interface,
    fun i => if i = 1 then some ⟨21, CableStatus.connected⟩ else none,
    fun c t => if c = 21 && t = 1 then some 4 else none,
    fun _ => (1, 1), fun _ _ => 1,
    fun r => if r = 4 then 2 else 1,
    fun _ => none⟩

/-- A single isolated interface 1 with no cable. -/
def c3T : Topology :=
  ⟨[1], fun _ => TermKind.interface, fun _ => none, fun _ _ => none,
    fun _ => (1, 1), fun _ _ => 1, fun _ => 1, fun _ => none⟩

/-- Interfaces 1 and 2 joined by cable 41 (connected). -/
def c4T : Topology :=
  ⟨[1, 2], fun _ => TermKind.interface,
    fun i => if i = 1 || i = 2 then some ⟨41, CableStatus.connected⟩ else none,
    fun c t =>
      if c = 41 then (if t = 1 then some 2 else if t = 2 then some 1 else none)
      else none,
    fun _ => (1, 1), fun _ _ => 1, fun _ => 1, fun _ => none⟩

/-- Interface 1 — cable 61 → circuit termination 2, whose circuit peer
is circuit termination 3 — cable 62 → rear port 4 with two positions:
tracing from 1 ends ambiguous right after passing circuit
termination 2. -/
def c6T : Topology :=
  ⟨[1, 2, 3, 4],
    fun i =>
      if i = 2 || i = 3 then TermKind.circuitTermination
      else if i = 4 then TermKind.rearPort else TermKind.interface,
    fun i =>
      if i = 1 || i = 2 then some ⟨61, CableStatus.connected⟩
      else if i = 3 || i = 4 then some ⟨62, CableStatus.connected⟩ else none,
    fun c t =>
      if c = 61 then (if t = 1 then some 2 else if t = 2 then some 1 else none)
      else if c = 62 then
        (if t = 3 then some 4 else if t = 4 then some 3 else none)
      else none,
    fun _ => (1, 1), fun _ _ => 1,
    fun r => if r = 4 then 2 else 1,
    fun i => if i = 2 then some 3 else if i = 3 then some 2 else none⟩

/-- Interface 1 — cable 71 (connected) → circuit termination 2, whose
circuit peer 3 has no cable: tracing from 1 dead-ends just past the
circuit termination, while tracing from 2 reaches interface 1 over the
connected cable alone. -/
def c7T : Topology :=
  ⟨[1, 2, 3],
    fun i => if i = 2 || i = 3 then TermKind.circuitTermination
      else TermKind.interface,
    fun i => if i = 1 || i = 2 then some ⟨71, CableStatus.connected⟩ else none,
    fun c t =>
      if c = 71 then (if t = 1 then some 2 else if t = 2 then some 1 else none)
      else none,
    fun _ => (1, 1), fun _ _ => 1, fun _ => 1,
    fun i => if i = 2 then some 3 else if i = 3 then some 2 else none⟩

/-- A cyclic topology: interface 1 — cable 91 → front port 2 of
single-position rear port 3; rear port 3 — cable 92 → front port 4,
whose rear port is again 3.  The chain from 1 revisits termination 3. -/
def c9T : Topology :=
  ⟨[1, 2, 3, 4],
    fun i => if i = 2 || i = 4 then TermKind.frontPort
      else if i = 3 then TermKind.rearPort else TermKind.interface,
    fun i =>
      if i = 1 then some ⟨91, CableStatus.connected⟩
      else if i = 3 then some ⟨92, CableStatus.connected⟩ else none,
    fun c t =>
      if c = 91 then (if t = 1 then some 2 else none)
      else if c = 92 then (if t = 3 then some 4 else none)
      else none,
    fun _ => (3, 1), fun _ _ => 2, fun _ => 1, fun _ => none⟩

/-- The trace output obtained from `c2T` at interface 1: a single
connected segment into the two-position rear port, flagged ambiguous. -/
def c2in : Traced :=
  ⟨[⟨⟨1, TermKind.interface⟩, some ⟨21, CableStatus.connected⟩,
      some ⟨4, TermKind.rearPort⟩⟩], true, []⟩

/-- A cache in which endpoint 1 has a previously recorded connection. -/
def c2st : CacheState :=
  fun i => if i = 1 then ⟨some 99, some true⟩ else ⟨none, none⟩

/-- The trace output obtained from `c3T` at interface 1: an immediate
dead end. -/
def c3in : Traced :=
  ⟨[⟨⟨1, TermKind.interface⟩, none, none⟩], false, []⟩

/-- The trace output obtained from `c6T` at interface 1: an ambiguous
two-segment path whose second-to-last `next_termination` is circuit
termination 2. -/
def c6in : Traced :=
  ⟨[⟨⟨1, TermKind.interface⟩, some ⟨61, CableStatus.connected⟩,
      some ⟨2, TermKind.circuitTermination⟩⟩,
    ⟨⟨3, TermKind.circuitTermination⟩, some ⟨62, CableStatus.connected⟩,
      some ⟨4, TermKind.rearPort⟩⟩], true, []⟩

/-- The trace output obtained from `c7T` at interface 1: past circuit
termination 2 to its uncabled peer 3 — the configuration that triggers
the circuit-termination fallback. -/
def c7inA : Traced :=
  ⟨[⟨⟨1, TermKind.interface⟩, some ⟨71, CableStatus.connected⟩,
      some ⟨2, TermKind.circuitTermination⟩⟩,
    ⟨⟨3, TermKind.circuitTermination⟩, none, none⟩], false, []⟩

/-- The path obtained by tracing `c7T` from circuit termination 2
itself: one connected segment to interface 1. -/
def c7pathB : List Segment :=
  [⟨⟨2, TermKind.circuitTermination⟩, some ⟨71, CableStatus.connected⟩,
      some ⟨1, TermKind.interface⟩⟩]

-- Claim theorems.

/-- C1: in both the incremental reconcile and the batch rebuild, the
pair `(endpoint_a, endpoint_b)` is recorded as mutually connected iff
both are real cable terminations and neither is a front port nor a rear
port (`isCableTermination` holds of every modelled termination); when
the rule fails, no write records a connection for the pair — the
incremental handler writes nothing, and the batch handler's only
possible write carries `connected_endpoint = none`. -/
theorem c1_pair_recorded_iff_real_endpoints (t : Traced) :
    (∀ b, resolve_endpoint_b t = some b →
      (isPassThrough (endpoint_a t.path) = false ∧ isPassThrough b = false →
        signal_endpoint_writes t =
          mutual_writes (endpoint_a t.path) b (path_status t.path) ∧
        retrace_endpoint_writes t =
          mutual_writes (endpoint_a t.path) b (path_status t.path)) ∧
      (isPassThrough (endpoint_a t.path) = true ∨ isPassThrough b = true →
        signal_endpoint_writes t = [] ∧ retrace_endpoint_writes t = [])) ∧
    (resolve_endpoint_b t = none →
      signal_endpoint_writes t = [] ∧
        ∀ w ∈ retrace_endpoint_writes t, w.connected_endpoint = none) := by
  constructor
  · intro b hb
    constructor
    · rintro ⟨ha, hbp⟩
      have hacc : acceptPair (endpoint_a t.path) b = true := by
        simp [acceptPair, isCableTermination, ha, hbp]
      simp [signal_endpoint_writes, retrace_endpoint_writes, hb, hacc]
    · intro h
      have hacc : acceptPair (endpoint_a t.path) b = false := by
        rcases h with h | h <;> simp [acceptPair, isCableTermination, h]
      simp [signal_endpoint_writes, retrace_endpoint_writes, hb, hacc]
  · intro hn
    simp [signal_endpoint_writes, retrace_endpoint_writes, hn]

/-- C1 witness: a straight-through connected pair of interfaces is
recorded mutually by both entry points. -/
theorem c1_pair_recorded_witness :
    signal_endpoint_writes
        ⟨[⟨⟨1, TermKind.interface⟩, some ⟨7, CableStatus.connected⟩,
            some ⟨2, TermKind.interface⟩⟩], false, []⟩ =
      [⟨1, some 2, some true⟩, ⟨2, some 1, some true⟩] ∧
    retrace_endpoint_writes
        ⟨[⟨⟨1, TermKind.interface⟩, some ⟨7, CableStatus.connected⟩,
            some ⟨2, TermKind.interface⟩⟩], false, []⟩ =
      [⟨1, some 2, some true⟩, ⟨2, some 1, some true⟩] :=
  ((c1_pair_recorded_iff_real_endpoints _).1 ⟨2, TermKind.interface⟩
    (by decide)).1 ⟨by decide, by decide⟩

/-- C5: for a (necessarily non-empty) traced path, the aggregate path
status computed by the loop shared by both call sites is true iff the
path is non-empty, every segment's cable is present, and every such
cable's status is the connected state; in particular a path whose only
segment has no cable (immediate dead end) yields false. -/
theorem c5_path_status_iff (path : List Segment) (h : path ≠ []) :
    path_status path = true ↔
      path ≠ [] ∧ ∀ seg ∈ path, ∃ c, seg.cable = some c ∧
        c.status = CableStatus.connected := by
  simp only [path_status, List.all_eq_true]
  constructor
  · intro hall
    refine ⟨h, fun seg hs => ?_⟩
    have hthis := hall seg hs
    cases hc : seg.cable with
    | none => rw [hc] at hthis; simp at hthis
    | some c =>
      rw [hc] at hthis
      simp only [beq_iff_eq] at hthis
      exact ⟨c, rfl, hthis⟩
  · rintro ⟨-, hall⟩ seg hs
    obtain ⟨c, hc, hst⟩ := hall seg hs
    rw [hc]
    simp [hst]

/-- C5 witness: a single connected segment gives status true; the
hypothesis of non-emptiness is discharged at the concrete path. -/
theorem c5_path_status_witness :
    path_status [⟨⟨1, TermKind.interface⟩, some ⟨5, CableStatus.connected⟩,
        some ⟨2, TermKind.interface⟩⟩] = true ↔
      ([⟨⟨1, TermKind.interface⟩, some ⟨5, CableStatus.connected⟩,
          some ⟨2, TermKind.interface⟩⟩] : List Segment) ≠ [] ∧
        ∀ seg ∈ ([⟨⟨1, TermKind.interface⟩,
            some ⟨5, CableStatus.connected⟩,
            some ⟨2, TermKind.interface⟩⟩] : List Segment),
          ∃ c, seg.cable = some c ∧ c.status = CableStatus.connected :=
  c5_path_status_iff _ (by decide)

/-- C10: in the batch rebuild's clearing branch (resolved far endpoint
is none), the endpoint's `connected_endpoint` is cleared but its
`connection_status` is assigned the computed path status, not none. -/
theorem c10_clearing_branch (t : Traced) (h : resolve_endpoint_b t = none) :
    retrace_endpoint_writes t =
      [⟨(endpoint_a t.path).id, none, some (path_status t.path)⟩] := by
  simp [retrace_endpoint_writes, h]

/-- C10 witness: an ambiguous path whose single traversed cable is
connected yields the cache state `connected_endpoint = none` together
with `connection_status = true`. -/
theorem c10_clearing_witness :
    resolve_endpoint_b
        ⟨[⟨⟨1, TermKind.interface⟩, some ⟨9, CableStatus.connected⟩,
            some ⟨4, TermKind.rearPort⟩⟩], true, []⟩ = none ∧
    retrace_endpoint_writes
        ⟨[⟨⟨1, TermKind.interface⟩, some ⟨9, CableStatus.connected⟩,
            some ⟨4, TermKind.rearPort⟩⟩], true, []⟩ =
      [⟨1, none, some true⟩] :=
  ⟨by decide, c10_clearing_branch _ (by decide)⟩

/-- C2 counterexample: endpoint 1 has a previously recorded connection
(`c2st 1 = ⟨some 99, some true⟩`); its fresh trace through `c2T` is
ambiguous, so the pair no longer qualifies — yet the incremental run
leaves the stale cache entirely in place instead of clearing it. -/
theorem c2_stale_cache_counterexample :
    trace c2T 1 = TraceResult.ok c2in.path true [] ∧
    resolve_endpoint_b c2in = none ∧
    c2st 1 = ⟨some 99, some true⟩ ∧
    (signal_run [c2in] c2st).1 1 = ⟨some 99, some true⟩ := by
  refine ⟨by decide, by decide, rfl, rfl⟩

/-- C2 (amended): when the freshly resolved pair fails the acceptance
rule, the incremental entry point writes nothing at all — a previously
recorded connection is left stale, not cleared — and the batch rebuild
clears only `connected_endpoint` (and only when the resolved far
endpoint is none), assigning the computed path status to
`connection_status` rather than clearing it. -/
theorem c2_no_clearing_on_failure (t : Traced) :
    (∀ b, resolve_endpoint_b t = some b →
      acceptPair (endpoint_a t.path) b = false →
      signal_endpoint_writes t = [] ∧ retrace_endpoint_writes t = []) ∧
    (resolve_endpoint_b t = none →
      signal_endpoint_writes t = [] ∧
      retrace_endpoint_writes t =
        [⟨(endpoint_a t.path).id, none, some (path_status t.path)⟩] ∧
      ∀ st : CacheState, (signal_run [t] st).1 = st) := by
  constructor
  · intro b hb hacc
    simp [signal_endpoint_writes, retrace_endpoint_writes, hb, hacc]
  · intro hn
    refine ⟨?_, ?_, fun st => ?_⟩
    · simp [signal_endpoint_writes, hn]
    · simp [retrace_endpoint_writes, hn]
    · simp [signal_run, signal_endpoint_writes, hn, apply_writes]

/-- C2 witness: at a concrete ambiguous input over a planned cable, the
incremental run is the identity on any concrete cache while the batch
writes `connected_endpoint = none` with the computed (false) status. -/
theorem c2_no_clearing_witness :
    signal_endpoint_writes
        ⟨[⟨⟨2, TermKind.interface⟩, some ⟨22, CableStatus.planned⟩,
            some ⟨5, TermKind.rearPort⟩⟩], true, []⟩ = [] ∧
    retrace_endpoint_writes
        ⟨[⟨⟨2, TermKind.interface⟩, some ⟨22, CableStatus.planned⟩,
            some ⟨5, TermKind.rearPort⟩⟩], true, []⟩ =
      [⟨2, none, some false⟩] ∧
    (signal_run
        [⟨[⟨⟨2, TermKind.interface⟩, some ⟨22, CableStatus.planned⟩,
            some ⟨5, TermKind.rearPort⟩⟩], true, []⟩]
        (fun _ => ⟨some 3, some true⟩)).1 =
      fun _ => ⟨some 3, some true⟩ := by
  have h := (c2_no_clearing_on_failure
    ⟨[⟨⟨2, TermKind.interface⟩, some ⟨22, CableStatus.planned⟩,
        some ⟨5, TermKind.rearPort⟩⟩], true, []⟩).2 (by decide)
  exact ⟨h.1, h.2.1, h.2.2 _⟩

/-- C6 counterexample: tracing `c6T` from interface 1 yields an
ambiguous path of length 2 whose second-to-last `next_termination` is
circuit termination 2, yet the resolved far endpoint is none — the
circuit-termination fallback is not applied in the ambiguous case. -/
theorem c6_no_fallback_when_ambiguous_counterexample :
    trace c6T 1 = TraceResult.ok c6in.path true [] ∧
    2 ≤ c6in.path.length ∧
    c6in.path[c6in.path.length - 2]?.map Segment.next_termination =
      some (some ⟨2, TermKind.circuitTermination⟩) ∧
    resolve_endpoint_b c6in = none := by
  refine ⟨by decide, by decide, by decide, by decide⟩

/-- C6 (amended): the circuit-termination fallback applies only inside
the unambiguous branch — when `split_ends` is false and the position
stack is empty, the final `next_termination` is none, the path has at
least two segments and the second-to-last `next_termination` is a
circuit termination; whenever the trace is ambiguous, `endpoint_b` is
none with no fallback. -/
theorem c6_fallback_scope (t : Traced) :
    (t.split_ends = true ∨ t.position_stack ≠ [] →
      resolve_endpoint_b t = none) ∧
    (∀ seg seg2 b, t.split_ends = false → t.position_stack = [] →
      t.path.getLast? = some seg → seg.next_termination = none →
      2 ≤ t.path.length → t.path[t.path.length - 2]? = some seg2 →
      seg2.next_termination = some b →
      b.kind = TermKind.circuitTermination →
      resolve_endpoint_b t = some b) := by
  constructor
  · intro h
    have hcond : (!t.split_ends && t.position_stack.isEmpty) = false := by
      rcases h with h | h
      · simp [h]
      · cases hs : t.position_stack with
        | nil => exact absurd hs h
        | cons a l => simp [h, hs]
    simp [resolve_endpoint_b, hcond]
  · intro seg seg2 b hse hst hlast hnone hlen hidx hnext hkind
    simp [resolve_endpoint_b, hse, hst, hlast, hnone, hlen, hidx, hnext, hkind]

/-- C6 witness: at a concrete unambiguous dead-end tail adjacent to a
circuit termination, the fallback fires. -/
theorem c6_fallback_witness :
    resolve_endpoint_b
        ⟨[⟨⟨1, TermKind.interface⟩, some ⟨66, CableStatus.planned⟩,
            some ⟨2, TermKind.circuitTermination⟩⟩,
          ⟨⟨3, TermKind.circuitTermination⟩, none, none⟩], false, []⟩ =
      some ⟨2, TermKind.circuitTermination⟩ :=
  (c6_fallback_scope _).2 ⟨⟨3, TermKind.circuitTermination⟩, none, none⟩
    ⟨⟨1, TermKind.interface⟩, some ⟨66, CableStatus.planned⟩,
      some ⟨2, TermKind.circuitTermination⟩⟩
    ⟨2, TermKind.circuitTermination⟩ rfl rfl (by decide) rfl (by decide)
    (by decide) rfl rfl

/-- C7 counterexample: tracing `c7T` from interface 1 records the pair
(1, 2) with both `connection_status` writes carrying the status of the
path traced from endpoint 1 (false: the tail segment has no cable),
while circuit termination 2's own independently traced path has status
true — so endpoint B is not given its own trace's status. -/
theorem c7_status_counterexample :
    trace c7T 1 = TraceResult.ok c7inA.path false [] ∧
    signal_endpoint_writes c7inA =
      [⟨1, some 2, some false⟩, ⟨2, some 1, some false⟩] ∧
    trace c7T 2 = TraceResult.ok c7pathB false [] ∧
    path_status c7pathB = true := by
  refine ⟨by decide, by decide, by decide, by decide⟩

/-- C7 (amended): whenever a pair is recorded (by either entry point),
both endpoints' `connection_status` writes carry the same status — the
status of the single path traced from the endpoint being processed —
rather than each side's own trace status. -/
theorem c7_shared_status (t : Traced) (b : Termination)
    (hb : resolve_endpoint_b t = some b)
    (hacc : acceptPair (endpoint_a t.path) b = true) :
    (∀ w ∈ signal_endpoint_writes t,
      w.connection_status = some (path_status t.path)) ∧
    (∀ w ∈ retrace_endpoint_writes t,
      w.connection_status = some (path_status t.path)) ∧
    signal_endpoint_writes t =
      mutual_writes (endpoint_a t.path) b (path_status t.path) ∧
    retrace_endpoint_writes t =
      mutual_writes (endpoint_a t.path) b (path_status t.path) := by
  have hs : signal_endpoint_writes t =
      mutual_writes (endpoint_a t.path) b (path_status t.path) := by
    simp [signal_endpoint_writes, hb, hacc]
  have hr : retrace_endpoint_writes t =
      mutual_writes (endpoint_a t.path) b (path_status t.path) := by
    simp [retrace_endpoint_writes, hb, hacc]
  refine ⟨?_, ?_, hs, hr⟩
  · rw [hs]; simp [mutual_writes]
  · rw [hr]; simp [mutual_writes]

/-- C7 witness: at a concrete accepted pair over a planned cable, both
entry points write the mutual pair with the shared (false) status. -/
theorem c7_shared_status_witness :
    signal_endpoint_writes
        ⟨[⟨⟨3, TermKind.interface⟩, some ⟨8, CableStatus.planned⟩,
            some ⟨4, TermKind.circuitTermination⟩⟩], false, []⟩ =
      mutual_writes ⟨3, TermKind.interface⟩ ⟨4, TermKind.circuitTermination⟩
        false ∧
    retrace_endpoint_writes
        ⟨[⟨⟨3, TermKind.interface⟩, some ⟨8, CableStatus.planned⟩,
            some ⟨4, TermKind.circuitTermination⟩⟩], false, []⟩ =
      mutual_writes ⟨3, TermKind.interface⟩ ⟨4, TermKind.circuitTermination⟩
        false :=
  (c7_shared_status _ ⟨4, TermKind.circuitTermination⟩ (by decide)
    (by decide)).2.2

-- Helper lemmas about persisting writes and batch runs.

/-- A run of writes none of which targets `i` leaves the cache at `i`
unchanged. -/
theorem apply_writes_notmem :
    ∀ (ws : List Write) (st : CacheState) (i : Nat),
      (∀ w ∈ ws, w.target ≠ i) → apply_writes st ws i = st i := by
  intro ws
  induction ws with
  | nil => intro st i _; rfl
  | cons w rest ih =>
    intro st i h
    have hw : w.target ≠ i := h w (List.mem_cons_self w rest)
    have hrest : apply_writes (apply_write st w) rest i = apply_write st w i :=
      ih _ i fun w' hw' => h w' (List.mem_cons_of_mem _ hw')
    calc apply_writes st (w :: rest) i
        = apply_writes (apply_write st w) rest i := rfl
      _ = apply_write st w i := hrest
      _ = st i := if_neg (Ne.symm hw)

/-- Applying a list of writes only depends on the prior cache at keys
the list does not write. -/
theorem apply_writes_congr :
    ∀ (ws : List Write) (st st' : CacheState),
      (∀ i, (∀ w ∈ ws, w.target ≠ i) → st i = st' i) →
      apply_writes st ws = apply_writes st' ws := by
  intro ws
  induction ws with
  | nil =>
    intro st st' h
    funext i
    exact h i fun w hw => absurd hw (List.not_mem_nil w)
  | cons w rest ih =>
    intro st st' h
    show apply_writes (apply_write st w) rest =
      apply_writes (apply_write st' w) rest
    apply ih
    intro i hi
    by_cases hit : i = w.target
    · simp [apply_write, hit]
    · have hst : st i = st' i := by
        apply h i
        intro w' hw'
        rcases List.mem_cons.mp hw' with rfl | hm
        · exact Ne.symm hit
        · exact hi w' hm
      simp [apply_write, hit, hst]

/-- Writes whose payload is all-none set the cache at any targeted key
to the all-none cache. -/
theorem apply_writes_all_null :
    ∀ (ws : List Write) (st : CacheState) (i : Nat),
      (∀ w ∈ ws, w.connected_endpoint = none ∧ w.connection_status = none) →
      (∃ w ∈ ws, w.target = i) → apply_writes st ws i = ⟨none, none⟩ := by
  intro ws
  induction ws with
  | nil =>
    intro st i _ hmem
    obtain ⟨w, hw, -⟩ := hmem
    exact absurd hw (List.not_mem_nil w)
  | cons w rest ih =>
    intro st i hall hmem
    show apply_writes (apply_write st w) rest i = ⟨none, none⟩
    by_cases hrest : ∃ w' ∈ rest, w'.target = i
    · exact ih _ i (fun w' h => hall w' (List.mem_cons_of_mem _ h)) hrest
    · obtain ⟨w', hw', ht⟩ := hmem
      rcases List.mem_cons.mp hw' with rfl | hm
      · have h1 : apply_writes (apply_write st w') rest i = apply_write st w' i :=
          apply_writes_notmem rest _ i
            fun w'' h'' heq => hrest ⟨w'', h'', heq⟩
        have h2 := hall w' (List.mem_cons_self w' rest)
        rw [h1]
        show (if i = w'.target then
            (⟨w'.connected_endpoint, w'.connection_status⟩ : Cache)
          else st i) = ⟨none, none⟩
        rw [if_pos ht.symm, h2.1, h2.2]
      · exact absurd ⟨w', hm, ht⟩ hrest

/-- The saves a batch pass performs are determined by the trace results
alone: resolution never reads the cache being rewritten. -/
theorem retrace_run_writes_indep :
    ∀ (inputs : List Traced) (st st' : CacheState),
      (retrace_run inputs st).writes = (retrace_run inputs st').writes := by
  intro inputs
  induction inputs with
  | nil => intro st st'; rfl
  | cons t rest ih =>
    intro st st'
    show retrace_endpoint_writes t ++ _ = retrace_endpoint_writes t ++ _
    rw [ih (apply_writes st (retrace_endpoint_writes t))
      (apply_writes st' (retrace_endpoint_writes t))]

/-- The reported count of a batch pass is the number of endpoints
iterated. -/
theorem retrace_run_count_eq :
    ∀ (inputs : List Traced) (st : CacheState),
      (retrace_run inputs st).count = inputs.length := by
  intro inputs
  induction inputs with
  | nil => intro st; rfl
  | cons t rest ih =>
    intro st
    show (retrace_run rest _).count + 1 = rest.length + 1
    rw [ih]

/-- Appending write lists composes their application. -/
theorem apply_writes_append :
    ∀ (ws ws' : List Write) (st : CacheState),
      apply_writes st (ws ++ ws') = apply_writes (apply_writes st ws) ws' := by
  intro ws
  induction ws with
  | nil => intro ws' st; rfl
  | cons w rest ih => intro ws' st; exact ih ws' (apply_write st w)

/-- The final state of a batch pass is the initial state with the
pass's writes applied in order. -/
theorem retrace_run_state_eq :
    ∀ (inputs : List Traced) (st : CacheState),
      (retrace_run inputs st).state =
        apply_writes st (retrace_run inputs st).writes := by
  intro inputs
  induction inputs with
  | nil => intro st; rfl
  | cons t rest ih =>
    intro st
    show (retrace_run rest _).state =
      apply_writes st (retrace_endpoint_writes t ++ (retrace_run rest _).writes)
    rw [apply_writes_append]
    exact ih (apply_writes st (retrace_endpoint_writes t))

/-- C3 counterexample: one isolated endpoint (traced via `c3T`) makes
the batch rebuild persist a clearing save on every run — the second
consecutive run performs one write, not zero. -/
theorem c3_second_run_writes_counterexample :
    trace c3T 1 = TraceResult.ok c3in.path false [] ∧
    (retrace_run [c3in]
        (retrace_run [c3in] (fun _ => ⟨none, none⟩)).state).writes =
      [⟨1, none, some false⟩] ∧
    [(⟨1, none, some false⟩ : Write)] ≠ [] := by
  refine ⟨by decide, rfl, by decide⟩

/-- C3 (amended): the batch rebuild is idempotent in the resulting
cache state — a second consecutive run with the same trace results
reproduces the first run's state, writes and count exactly; the second
run's writes rewrite identical values rather than being absent. -/
theorem c3_rebuild_state_idempotent (inputs : List Traced) (st : CacheState) :
    (retrace_run inputs (retrace_run inputs st).state).state =
      (retrace_run inputs st).state ∧
    (retrace_run inputs (retrace_run inputs st).state).writes =
      (retrace_run inputs st).writes ∧
    (retrace_run inputs (retrace_run inputs st).state).count =
      (retrace_run inputs st).count := by
  have hw := retrace_run_writes_indep inputs (retrace_run inputs st).state st
  refine ⟨?_, hw, by rw [retrace_run_count_eq, retrace_run_count_eq]⟩
  rw [retrace_run_state_eq inputs (retrace_run inputs st).state, hw,
    retrace_run_state_eq inputs st]
  apply apply_writes_congr
  intro i hi
  exact apply_writes_notmem _ _ _ hi

/-- C4: after a cable deletion, every collected endpoint carrying the
cache fields — every real endpoint that was reachable by tracing from
either of the cable's terminations, collected before the cable
references are removed — has both `connected_endpoint` and
`connection_status` set to none, for every topology (in particular when
no other cable could re-establish a connection). -/
theorem c4_delete_clears_endpoints (topo : Topology) (ta tb : Nat)
    (st : CacheState) (e : Termination)
    (hmem : e ∈ get_path_endpoints topo ta ++ get_path_endpoints topo tb)
    (hce : has_connected_endpoint e = true) :
    (nullify_connected_endpoints topo ta tb st).2 e.id = ⟨none, none⟩ := by
  show apply_writes st
      (((get_path_endpoints topo ta ++ get_path_endpoints topo tb).filter
        fun e' => has_connected_endpoint e').map
        fun e' => ⟨e'.id, none, none⟩) e.id = ⟨none, none⟩
  apply apply_writes_all_null
  · intro w hw
    simp only [List.mem_map] at hw
    obtain ⟨e', -, rfl⟩ := hw
    exact ⟨rfl, rfl⟩
  · exact ⟨⟨e.id, none, none⟩,
      List.mem_map_of_mem _ (List.mem_filter.mpr ⟨hmem, hce⟩), rfl⟩

/-- C4 witness: for the two cabled interfaces of `c4T`, endpoint 2 is
collected from termination 1's trace and its cache is fully nulled. -/
theorem c4_delete_clears_witness :
    (⟨2, TermKind.interface⟩ : Termination) ∈
      get_path_endpoints c4T 1 ++ get_path_endpoints c4T 2 ∧
    (nullify_connected_endpoints c4T 1 2 (fun _ => ⟨some 9, some true⟩)).2 2 =
      ⟨none, none⟩ :=
  ⟨by decide, c4_delete_clears_endpoints c4T 1 2 _ ⟨2, TermKind.interface⟩
    (by decide) (by decide)⟩

/-- Under the spec §4.1 tail contract, a resolved far endpoint is never
a pass-through port: it is either the path's final real
`next_termination` or the circuit-termination fallback. -/
theorem resolve_some_not_pass (t : Traced) (b : Termination)
    (htail : tail_ok t = true) (hb : resolve_endpoint_b t = some b) :
    isPassThrough b = false := by
  unfold resolve_endpoint_b at hb
  split at hb
  case isFalse => exact absurd hb (by simp)
  case isTrue hcond =>
    simp only [Bool.and_eq_true] at hcond
    obtain ⟨hse, hst⟩ := hcond
    have hse' : t.split_ends = false := by
      cases h : t.split_ends
      · rfl
      · rw [h] at hse; simp at hse
    have hst' : t.position_stack = [] := by
      cases h : t.position_stack with
      | nil => rfl
      | cons a l => rw [h] at hst; simp at hst
    have htail' : tail_ok t = true := htail
    unfold tail_ok at htail'
    rw [if_pos ⟨hse', hst'⟩] at htail'
    split at hb
    case h_2 hlast => exact absurd hb (by simp)
    case h_1 seg hlast =>
      rw [hlast] at htail'
      simp only [] at htail'
      split at hb
      case h_1 b' hnext =>
        rw [hnext] at htail'
        injection hb with hbb
        subst hbb
        simpa using htail'
      case h_2 hnext =>
        split at hb
        case isFalse => exact absurd hb (by simp)
        case isTrue hlen =>
          split at hb
          case h_2 hidx => exact absurd hb (by simp)
          case h_1 seg2 hidx =>
            split at hb
            case h_2 hn2 => exact absurd hb (by simp)
            case h_1 cand hn2 =>
              split at hb
              case isFalse => exact absurd hb (by simp)
              case isTrue hk =>
                cases hb
                simp [isPassThrough, hk]

/-- Under the tail contract, every endpoint iterated by the batch
rebuild receives at least one save targeting it: the accepted branch
and the clearing branch both write `endpoint_a`. -/
theorem retrace_endpoint_hits (t : Traced)
    (ha : isPassThrough (endpoint_a t.path) = false)
    (htail : tail_ok t = true) :
    (retrace_endpoint_writes t).any
      (fun w => w.target == (endpoint_a t.path).id) = true := by
  cases hb : resolve_endpoint_b t with
  | none => simp [retrace_endpoint_writes, hb]
  | some b =>
    have hbp := resolve_some_not_pass t b htail hb
    have hacc : acceptPair (endpoint_a t.path) b = true := by
      simp [acceptPair, isCableTermination, ha, hbp]
    simp [retrace_endpoint_writes, hb, hacc, mutual_writes]

/-- C8: for a batch pass over endpoints satisfying the spec §4.1 trace
contract (real starting endpoint, unambiguous tails never end at a
pass-through port), the reported count equals the number of iterated
endpoints that actually received a save — every examined endpoint is
written, so counting iterations counts updates. -/
theorem c8_count_equals_updated (inputs : List Traced) (st : CacheState)
    (ha : ∀ t ∈ inputs, isPassThrough (endpoint_a t.path) = false)
    (htail : ∀ t ∈ inputs, tail_ok t = true) :
    (retrace_run inputs st).count =
      (inputs.filter fun t =>
        (retrace_endpoint_writes t).any
          fun w => w.target == (endpoint_a t.path).id).length := by
  have hfilter : (inputs.filter fun t =>
      (retrace_endpoint_writes t).any
        fun w => w.target == (endpoint_a t.path).id) = inputs :=
    List.filter_eq_self.mpr fun t ht =>
      retrace_endpoint_hits t (ha t ht) (htail t ht)
  rw [hfilter, retrace_run_count_eq]

/-- C8 witness: a single straight-through endpoint is both counted and
written; the count equals the filtered length. -/
theorem c8_count_witness :
    (retrace_run
        [⟨[⟨⟨1, TermKind.interface⟩, some ⟨8, CableStatus.connected⟩,
            some ⟨2, TermKind.interface⟩⟩], false, []⟩]
        (fun _ => ⟨none, none⟩)).count =
      ([⟨[⟨⟨1, TermKind.interface⟩, some ⟨8, CableStatus.connected⟩,
            some ⟨2, TermKind.interface⟩⟩], false, []⟩].filter
        fun t : Traced =>
          (retrace_endpoint_writes t).any
            fun w => w.target == (endpoint_a t.path).id).length :=
  c8_count_equals_updated _ _ (by decide) (by decide)

/-- A guarded trace that returns a path visits pairwise-distinct
terminations, none of them previously visited: the hop chain followed
from the starting pair never revisits. -/
theorem trace_ok_no_revisit (topo : Topology) (fuel : Nat) :
    ∀ (cur : Nat) (visited : List Nat) (path : List Segment)
      (stack : List Nat) (p : List Segment) (se : Bool) (sk : List Nat),
      traceAux topo fuel cur visited path stack = TraceResult.ok p se sk →
      ∀ n c s, walkFrom topo (cur, stack) n = some (c, s) →
        c ∉ visited ∧
          ∀ m c' s', m < n → walkFrom topo (cur, stack) m = some (c', s') →
            c' ≠ c := by
  induction fuel with
  | zero =>
    intro cur visited path stack p se sk h
    exact absurd h (by simp [traceAux])
  | succ f ih =>
    intro cur visited path stack p se sk h n c s hw
    by_cases hv : cur ∈ visited
    · simp [traceAux, hv] at h
    · cases hs : traceStep topo cur stack with
      | stop seg se0 =>
        have hstep : stepCS topo (cur, stack) = none := by simp [stepCS, hs]
        cases n with
        | zero =>
          have heq : cur = c ∧ stack = s := by simpa [walkFrom] using hw
          obtain ⟨rfl, rfl⟩ := heq
          exact ⟨hv, fun m c' s' hm _ => absurd hm (Nat.not_lt_zero m)⟩
        | succ m => simp [walkFrom, hstep] at hw
      | go seg c0 s0 =>
        have hstep : stepCS topo (cur, stack) = some (c0, s0) := by
          simp [stepCS, hs]
        have h' : traceAux topo f c0 (cur :: visited) (path ++ [seg]) s0 =
            TraceResult.ok p se sk := by
          simpa [traceAux, hv, hs] using h
        cases n with
        | zero =>
          have heq : cur = c ∧ stack = s := by simpa [walkFrom] using hw
          obtain ⟨rfl, rfl⟩ := heq
          exact ⟨hv, fun m c' s' hm _ => absurd hm (Nat.not_lt_zero m)⟩
        | succ m =>
          have hw' : walkFrom topo (c0, s0) m = some (c, s) := by
            simpa [walkFrom, hstep] using hw
          obtain ⟨hnotin, hdist⟩ :=
            ih c0 (cur :: visited) (path ++ [seg]) s0 p se sk h' m c s hw'
          refine ⟨fun hmem => hnotin (List.mem_cons_of_mem _ hmem), ?_⟩
          intro k c' s' hk hwk
          cases k with
          | zero =>
            have heq : cur = c' ∧ stack = s' := by simpa [walkFrom] using hwk
            obtain ⟨rfl, rfl⟩ := heq
            intro hcc
            exact hnotin (hcc ▸ List.mem_cons_self cur visited)
          | succ k' =>
            have hwk' : walkFrom topo (c0, s0) k' = some (c', s') := by
              simpa [walkFrom, hstep] using hwk
            exact hdist k' c' s' (Nat.lt_of_succ_lt_succ hk) hwk'

/-- Under the closure hypotheses on the topology's mapping functions,
continuing hops stay inside the termination universe. -/
theorem traceStep_go_mem (topo : Topology)
    (hfr : ∀ f2, (topo.frontToRear f2).1 ∈ topo.ids)
    (hrf : ∀ r p2, topo.rearToFront r p2 ∈ topo.ids)
    (hcp : ∀ t2 p2, topo.circuitPeer t2 = some p2 → p2 ∈ topo.ids)
    (cur : Nat) (stack : List Nat) (seg : Segment) (c0 : Nat)
    (s0 : List Nat) (h : traceStep topo cur stack = StepOut.go seg c0 s0) :
    c0 ∈ topo.ids := by
  unfold traceStep at h
  cases hc : topo.cableOf cur with
  | none => rw [hc] at h; exact StepOut.noConfusion h
  | some cable =>
    simp only [hc] at h
    cases hfs : topo.farSide cable.id cur with
    | none => rw [hfs] at h; exact StepOut.noConfusion h
    | some nxt =>
      simp only [hfs] at h
      cases hk : topo.kind nxt with
      | frontPort =>
        simp only [hk] at h
        injection h with h1 h2 h3
        rw [← h2]
        exact hfr nxt
      | rearPort =>
        simp only [hk] at h
        by_cases hpos : 1 < topo.positions nxt
        · rw [if_pos hpos] at h
          cases stack with
          | nil => exact StepOut.noConfusion h
          | cons p2 rest =>
            injection h with h1 h2 h3
            rw [← h2]
            exact hrf nxt p2
        · rw [if_neg hpos] at h
          injection h with h1 h2 h3
          rw [← h2]
          exact hrf nxt 1
      | circuitTermination =>
        simp only [hk] at h
        cases hp : topo.circuitPeer nxt with
        | none => rw [hp] at h; exact StepOut.noConfusion h
        | some peer =>
          simp only [hp] at h
          injection h with h1 h2 h3
          rw [← h2]
          exact hcp nxt peer hp
      | interface =>
        simp only [hk] at h
        exact StepOut.noConfusion h

/-- With fuel exceeding the termination universe, the guarded trace
never exhausts its recursion bound: the visited set grows by one
fresh in-universe termination per iteration. -/
theorem trace_no_fuel_exhaustion (topo : Topology)
    (hfr : ∀ f2, (topo.frontToRear f2).1 ∈ topo.ids)
    (hrf : ∀ r p2, topo.rearToFront r p2 ∈ topo.ids)
    (hcp : ∀ t2 p2, topo.circuitPeer t2 = some p2 → p2 ∈ topo.ids)
    (fuel : Nat) :
    ∀ (cur : Nat) (visited : List Nat) (path : List Segment)
      (stack : List Nat),
      cur ∈ topo.ids → visited.Nodup → (∀ v ∈ visited, v ∈ topo.ids) →
      topo.ids.length + 1 ≤ fuel + visited.length →
      traceAux topo fuel cur visited path stack ≠ TraceResult.outOfFuel := by
  induction fuel with
  | zero =>
    intro cur visited path stack hcur hnd hsub hlen
    exfalso
    have hle : visited.length ≤ topo.ids.length :=
      (List.subperm_of_subset hnd fun a ha => hsub a ha).length_le
    omega
  | succ f ih =>
    intro cur visited path stack hcur hnd hsub hlen
    by_cases hv : cur ∈ visited
    · simp [traceAux, hv]
    · cases hs : traceStep topo cur stack with
      | stop seg se0 => simp [traceAux, hv, hs]
      | go seg c0 s0 =>
        have heq : traceAux topo (f + 1) cur visited path stack =
            traceAux topo f c0 (cur :: visited) (path ++ [seg]) s0 := by
          simp [traceAux, hv, hs]
        rw [heq]
        apply ih
        · exact traceStep_go_mem topo hfr hrf hcp cur stack seg c0 s0 hs
        · exact List.nodup_cons.mpr ⟨hv, hnd⟩
        · intro v hv'
          rcases List.mem_cons.mp hv' with rfl | hm
          · exact hcur
          · exact hsub v hm
        · simp only [List.length_cons]
          omega

/-- C9: for every topology whose mapping functions stay inside the
finite termination universe, tracing from any in-universe start
terminates with a definite answer — it never exhausts the recursion
bound — and whenever the chain of cable and pass-through hops from the
start revisits a termination, the result is the distinct cycle error of
the visited-termination guard, not a silently truncated path. -/
theorem c9_cycle_guard (topo : Topology) (start : Nat)
    (hstart : start ∈ topo.ids)
    (hfr : ∀ f2, (topo.frontToRear f2).1 ∈ topo.ids)
    (hrf : ∀ r p2, topo.rearToFront r p2 ∈ topo.ids)
    (hcp : ∀ t2 p2, topo.circuitPeer t2 = some p2 → p2 ∈ topo.ids) :
    trace topo start ≠ TraceResult.outOfFuel ∧
    (hasCycleFrom topo start →
      ∃ t2, trace topo start = TraceResult.cycleError t2) := by
  have hnf : trace topo start ≠ TraceResult.outOfFuel := by
    apply trace_no_fuel_exhaustion topo hfr hrf hcp (topo.ids.length + 1)
      start [] [] []
    · exact hstart
    · exact List.nodup_nil
    · intro v hv
      exact absurd hv (List.not_mem_nil v)
    · simp
  refine ⟨hnf, fun hcyc => ?_⟩
  obtain ⟨i, j, ci, si, cj, sj, hij, hwi, hwj, hcc⟩ := hcyc
  cases hres : trace topo start with
  | ok p se sk =>
    exfalso
    obtain ⟨-, hdist⟩ := trace_ok_no_revisit topo (topo.ids.length + 1)
      start [] [] [] p se sk hres j cj sj hwj
    exact hdist i ci si hij hwi hcc
  | cycleError t2 => exact ⟨t2, rfl⟩
  | outOfFuel => exact absurd hres hnf

/-- C9 witness: the cyclic topology `c9T` (the chain from interface 1
revisits rear port 3) satisfies the closure hypotheses, has a cycle,
and its trace reports the cycle error. -/
theorem c9_cycle_guard_witness :
    trace c9T 1 ≠ TraceResult.outOfFuel ∧
    (∃ t2, trace c9T 1 = TraceResult.cycleError t2) := by
  have h := c9_cycle_guard c9T 1 (by decide)
    (fun f2 => show (3 : Nat) ∈ c9T.ids by decide)
    (fun r p2 => show (2 : Nat) ∈ c9T.ids by decide)
    (fun t2 p2 hp => Option.noConfusion hp)
  exact ⟨h.1, h.2 ⟨1, 2, 3, [], 3, [], by omega, by decide, by decide, rfl⟩⟩

end Netbox
